import Mathlib

/-!
Verification of the Exabeam DataLake and SailPoint IdentityNow integration
modules.  Each definition is a shallow embedding of the corresponding Python
function; machine integers are modelled by Int/Nat, Python dictionaries by
structures with Option fields, and raised exceptions by Except/Option.
-/

namespace ExabeamDL

/-- A value looked up in the args dictionary of the integration: the key can
be absent, present with value None, or present with a string value.  This
distinction matters because args.get(key, default) yields the default only
when the key is absent, while a present None is returned as is. -/
inductive PyArg where
  | absent
  | null
  | str (s : String)
deriving DecidableEq, Repr

/-- Python args.get(key, default): returns the stored value (possibly None)
when the key is present and the default otherwise. -/
def PyArg.get (a : PyArg) (default : Option String) : Option String :=
  match a with
  | .absent => default
  | .null => none
  | .str s => some s

/-- Python truthiness of an args value: absent and None are falsy, a string
is truthy exactly when it is nonempty. -/
def PyArg.truthy (a : PyArg) : Bool :=
  match a with
  | .absent => false
  | .null => false
  | .str s => s ≠ ""

/-- Value of a decimal digit character. -/
def digitVal (c : Char) : Option Nat :=
  if '0' ≤ c ∧ c ≤ '9' then some (c.toNat - 48) else none

/-- Accumulating decimal parse of a digit string. -/
def digitsToNat : Nat → List Char → Option Nat
  | acc, [] => some acc
  | acc, c :: cs =>
    match digitVal c with
    | some d => digitsToNat (acc * 10 + d) cs
    | none => none

/-- Python int(s) on a plain decimal literal with optional leading minus:
None on anything that does not parse. -/
def strToInt (s : String) : Option Int :=
  match s.data with
  | [] => none
  | '-' :: rest =>
    if rest = [] then none else (digitsToNat 0 rest).map (fun n => -(n : Int))
  | l => (digitsToNat 0 l).map Int.ofNat

/-- CommonServerPython arg_to_number: None and the empty string give None,
a numeric string parses to its value, anything else raises ValueError. -/
def arg_to_number (a : Option String) : Except String (Option Int) :=
  match a with
  | none => .ok none
  | some s => if s = "" then .ok none else
      match strToInt s with
      | some n => .ok (some n)
      | none => .error "ValueError: invalid number"

/-- Python truthiness of an optional number: None and 0 are falsy. -/
def truthyNum (a : Option Int) : Bool :=
  match a with
  | none => false
  | some n => n ≠ 0

/-- Embedding of ExabeamDataLake.calculate_page_parameters.  The three
arguments are the entries of the args dict for the keys page, page_size and
limit.  A raised DemistoException/ValueError is an .error result. -/
def calculate_page_parameters (page_arg page_size_arg limit_arg : PyArg) :
    Except String (Int × Int) :=
  if (limit_arg.truthy && (page_arg.truthy || page_size_arg.truthy)) ||
      (!(page_arg.truthy && page_size_arg.truthy) &&
        (page_arg.truthy || page_size_arg.truthy)) then
    .error "You can only provide limit alone or page and page_size together."
  else
    match arg_to_number (page_arg.get (some "1")),
        arg_to_number (page_size_arg.get (some "50")),
        arg_to_number (limit_arg.get (some "50")) with
    | .error e, _, _ => .error e
    | .ok _, .error e, _ => .error e
    | .ok _, .ok _, .error e => .error e
    | .ok page, .ok page_size, .ok limit =>
      if truthyNum page && truthyNum page_size then
        .ok (page.getD 0 * page_size.getD 0 - page_size.getD 0, page_size.getD 0)
      else
        .ok (0, limit.getD 50)

/-- The constructor arguments that ExabeamDataLake.Client.__init__ forwards
to the underlying BaseClient. -/
structure BaseClientArgs where
  base_url : String
  verify : Bool
  proxy : Bool
  timeout : Nat
deriving DecidableEq, Repr

/-- Embedding of ExabeamDataLake.Client.__init__: the arguments it passes to
BaseClient.  The verify parameter of the caller is accepted but the call
hard-codes verify=False. -/
def clientInit (base_url : String) (_username _password : String)
    (_verify proxy : Bool) : BaseClientArgs :=
  { base_url := base_url, verify := false, proxy := proxy, timeout := 20 }

/-- Embedding of the verify flag computed in ExabeamDataLake.main:
verify_certificate = not params.get(insecure, False). -/
def mainVerifyFlag (insecure : Bool) : Bool := !insecure

end ExabeamDL

namespace SailPoint

/-- A parsed Python datetime value (datetime.fromisoformat result). -/
structure PyDateTime where
  year : Nat
  month : Nat
  day : Nat
  hour : Nat
  minute : Nat
  second : Nat
deriving DecidableEq, Repr

/-- Python datetime comparison: lexicographic on the components. -/
def PyDateTime.lt (a b : PyDateTime) : Prop :=
  a.year < b.year ∨ (a.year = b.year ∧
    (a.month < b.month ∨ (a.month = b.month ∧
      (a.day < b.day ∨ (a.day = b.day ∧
        (a.hour < b.hour ∨ (a.hour = b.hour ∧
          (a.minute < b.minute ∨ (a.minute = b.minute ∧
            a.second < b.second)))))))))

instance (a b : PyDateTime) : Decidable (PyDateTime.lt a b) := by
  unfold PyDateTime.lt
  infer_instance

/-- Zero-pad a number to two digits (strftime %m, %d, %H, %M, %S). -/
def pad2 (n : Nat) : String :=
  if n < 10 then "0" ++ toString n else toString n

/-- Zero-pad a number to four digits (strftime %Y). -/
def pad4 (n : Nat) : String :=
  if n < 10 then "000" ++ toString n
  else if n < 100 then "00" ++ toString n
  else if n < 1000 then "0" ++ toString n
  else toString n

/-- strftime with the module constant DATE_FORMAT = %Y-%m-%dT%H:%M:%SZ. -/
def PyDateTime.strftimeZ (t : PyDateTime) : String :=
  pad4 t.year ++ "-" ++ pad2 t.month ++ "-" ++ pad2 t.day ++ "T" ++
    pad2 t.hour ++ ":" ++ pad2 t.minute ++ ":" ++ pad2 t.second ++ "Z"

/-- A raw event record as seen by add_time_and_status_to_events: optional
created/modified timestamps (already parsed; absent or empty fields are
none) and the two injected keys.  The injected time key is doubly optional
because Python distinguishes a missing key from a key set to None. -/
structure SPRecord where
  created : Option PyDateTime
  modified : Option PyDateTime
  entry_status : Option String := none
  time : Option (Option String) := none
deriving DecidableEq, Repr

/-- Embedding of add_time_and_status_to_events on one record: sets the
_ENTRY_STATUS tag and the _time field exactly as the source's if/elif/else
chain does. -/
def add_time_and_status_to_event (e : SPRecord) : SPRecord :=
  let created := e.created
  let modified := e.modified
  let status : String :=
    match modified, created with
    | some m, some c => if PyDateTime.lt c m then "modified" else "new"
    | _, _ => "new"
  let e1 : SPRecord := { e with entry_status := some status }
  match created, modified with
  | some c, some m =>
    if PyDateTime.lt c m then { e1 with time := some (some m.strftimeZ) }
    else { e1 with time := some (some c.strftimeZ) }
  | some c, none => { e1 with time := some (some c.strftimeZ) }
  | none, _ => { e1 with time := some none }

/-- Embedding of add_time_and_status_to_events: Python mutates the list in
place, which is modelled by returning the updated list; a None or empty
list is left untouched (map on the empty list is the identity). -/
def add_time_and_status_to_events (events : Option (List SPRecord)) :
    Option (List SPRecord) :=
  match events with
  | none => none
  | some l => some (l.map add_time_and_status_to_event)

/-- The integration context as read and written by get_token/generate_token:
get(token, empty string) and get(expires). -/
structure IntegrationContext where
  token : String
  expires : Option Int
deriving DecidableEq, Repr

/-- The vendor reply to the OAuth client-credentials exchange. -/
structure TokenResponse where
  access_token : String
  expires_in : Int
deriving DecidableEq, Repr

/-- Python truthiness of the cached expires value: None and 0 are falsy. -/
def truthyExpires (v : Option Int) : Bool :=
  match v with
  | none => false
  | some n => n ≠ 0

/-- Embedding of Client.generate_token: performs the exchange (modelled by
the given response), stores the token and the expiry minus the 60-second
safety margin in the integration context, and returns the token. -/
def generate_token (now : Int) (ctx : IntegrationContext)
    (resp : TokenResponse) : String × IntegrationContext :=
  let token := resp.access_token
  let expiration_time := now + resp.expires_in
  (token, { ctx with token := token, expires := some (expiration_time - 60) })

/-- Embedding of Client.get_token: the third component counts the number of
token-exchange requests performed (0 on the cached fast path, 1 on
refresh). -/
def get_token (now : Int) (ctx : IntegrationContext) (resp : TokenResponse) :
    String × IntegrationContext × Nat :=
  let token := ctx.token
  let valid_until := ctx.expires
  if token ≠ "" ∧ truthyExpires valid_until = true ∧ now < valid_until.getD 0 then
    (token, ctx, 0)
  else
    let r := generate_token now ctx resp
    (r.1, r.2, 1)

/-- An event as handled by the fetch loop: the vendor serves events sorted
ascending by id, so ids are modelled as numbers; created is the creation
date string the cursor stores. -/
structure SPEvent where
  id : Nat
  created : String
deriving DecidableEq, Repr

/-- The last_run dict of fetch_events: both keys optional. -/
structure SPLastRun where
  prev_id : Option Nat
  prev_date : Option String
deriving DecidableEq, Repr

/-- The module constant DEFAULT_LOOKBACK, the formatted time one hour before
process start.  Its concrete value never matters to the cursor logic, so it
is modelled by a fixed marker string. -/
def DEFAULT_LOOKBACK : String := "one hour before now"

/-- A vendor search call: Client.search_events takes the previous id, the
lower time bound and a limit, and returns a list of events. -/
abbrev SearchFn := Nat → String → Int → List SPEvent

/-- A vendor that serves an ascending-by-id event stream faithfully: a
search after prev_id returns the next events of the stream in order, at
most limit of them.  The time bound is satisfied by every stream record, so
it does not filter further. -/
def faithfulSearch (stream : List SPEvent) : SearchFn :=
  fun prev_id _from_date limit =>
    (stream.filter (fun e => prev_id < e.id)).take limit.toNat

/-- Embedding of the while loop of fetch_events.  all_events is the
accumulator; lastFetched carries the loop locals last_fetched_id and
last_fetched_creation_date, none while they are still unassigned.  The
result none models the UnboundLocalError raised when the next_run dict is
built from the never-assigned loop locals. -/
def fetchLoop (s : SearchFn) (last_run : SPLastRun) (budget : Int)
    (all_events : List SPEvent) (lastFetched : Option (Nat × String)) :
    Option (SPLastRun × List SPEvent) :=
  if hb : budget ≤ 0 then
    lastFetched.map (fun p => (⟨some p.1, some p.2⟩, all_events))
  else
    let events := s (last_run.prev_id.getD 0)
      (last_run.prev_date.getD DEFAULT_LOOKBACK) budget
    match h : events.getLast? with
    | none =>
      lastFetched.map (fun p => (⟨some p.1, some p.2⟩, all_events))
    | some lastE =>
      fetchLoop s ⟨some lastE.id, some lastE.created⟩
        (budget - events.length) (all_events ++ events)
        (some (lastE.id, lastE.created))
termination_by budget.toNat
decreasing_by
  have hne : events ≠ [] := by
    intro he
    rw [he] at h
    exact Option.noConfusion h
  have hlen : 1 ≤ events.length := List.length_pos.mpr hne
  have hb2 : 0 < budget := lt_of_not_le hb
  show (budget - (events.length : Int)).toNat < budget.toNat
  omega

/-- Embedding of fetch_events: runs the loop from an empty accumulator with
the loop locals unassigned and returns the next_run dict and all fetched
events, or none for the UnboundLocalError crash. -/
def fetch_events (s : SearchFn) (last_run : SPLastRun)
    (max_events_per_fetch : Int) : Option (SPLastRun × List SPEvent) :=
  fetchLoop s last_run max_events_per_fetch [] none

/-- A concrete vendor used as evaluation input: serves one event with id 7
on the initial cursor and nothing afterwards. -/
def singleEventSearch : SearchFn := fun prev_id _ _ =>
  if prev_id = 0 then [⟨7, "t"⟩] else []

end SailPoint

namespace ExabeamDL

/-- Python calendar leap-year rule. -/
def isLeapYear (y : Nat) : Bool :=
  (y % 4 == 0 && y % 100 != 0) || (y % 400 == 0)

/-- Length of a calendar month; 0 for month numbers outside 1..12. -/
def daysInMonth (y m : Nat) : Nat :=
  if m = 1 ∨ m = 3 ∨ m = 5 ∨ m = 7 ∨ m = 8 ∨ m = 10 ∨ m = 12 then 31
  else if m = 4 ∨ m = 6 ∨ m = 9 ∨ m = 11 then 30
  else if m = 2 then (if isLeapYear y then 29 else 28)
  else 0

/-- A calendar date as parsed by strptime with format %Y-%m-%d. -/
structure Date where
  year : Nat
  month : Nat
  day : Nat
deriving DecidableEq, Repr

/-- The dates strptime accepts: month 1..12 and day within the month. -/
def Date.valid (d : Date) : Prop :=
  1 ≤ d.month ∧ d.month ≤ 12 ∧ 1 ≤ d.day ∧ d.day ≤ daysInMonth d.year d.month

instance (d : Date) : Decidable d.valid := by
  unfold Date.valid
  infer_instance

/-- Python datetime comparison (dates at midnight): lexicographic. -/
def Date.le (a b : Date) : Prop :=
  a.year < b.year ∨ (a.year = b.year ∧
    (a.month < b.month ∨ (a.month = b.month ∧ a.day ≤ b.day)))

/-- Strict Python datetime comparison. -/
def Date.lt (a b : Date) : Prop :=
  a.year < b.year ∨ (a.year = b.year ∧
    (a.month < b.month ∨ (a.month = b.month ∧ a.day < b.day)))

instance (a b : Date) : Decidable (Date.le a b) := by
  unfold Date.le
  infer_instance

instance (a b : Date) : Decidable (Date.lt a b) := by
  unfold Date.lt
  infer_instance

/-- Adding timedelta(days=1) to a date. -/
def nextDay (d : Date) : Date :=
  if d.day < daysInMonth d.year d.month then ⟨d.year, d.month, d.day + 1⟩
  else if d.month < 12 then ⟨d.year, d.month + 1, 1⟩
  else ⟨d.year + 1, 1, 1⟩

/-- Days in the months of year y strictly before month m. -/
def daysBeforeMonth (y : Nat) : Nat → Nat
  | 0 => 0
  | m + 1 => daysBeforeMonth y m + daysInMonth y m

/-- Length of a calendar year. -/
def daysInYear (y : Nat) : Nat := if isLeapYear y then 366 else 365

/-- Days in the years strictly before year y. -/
def daysBeforeYear : Nat → Nat
  | 0 => 0
  | y + 1 => daysBeforeYear y + daysInYear y

/-- Day ordinal of a date; differences of ordinals are exactly the .days of
Python timedelta subtraction of the two midnights. -/
def Date.ord (d : Date) : Nat :=
  daysBeforeYear d.year + daysBeforeMonth d.year d.month + d.day

/-- A nonempty all-digit character list parsed as a number. -/
def digitsList (l : List Char) : Option Nat :=
  if l = [] then none else digitsToNat 0 l

/-- Split a character list at dashes. -/
def splitDash : List Char → List Char → List (List Char)
  | acc, [] => [acc.reverse]
  | acc, c :: cs =>
    if c = '-' then acc.reverse :: splitDash [] cs
    else splitDash (c :: acc) cs

/-- strptime(s, %Y-%m-%d): three dash-separated numeric fields forming a
valid calendar date; None models the raised ValueError. -/
def parseDate (s : String) : Option {d : Date // d.valid} :=
  match splitDash [] s.data with
  | [ys, ms, ds] =>
    match digitsList ys, digitsList ms, digitsList ds with
    | some y, some m, some dd =>
      if h : (⟨y, m, dd⟩ : Date).valid then some ⟨⟨y, m, dd⟩, h⟩ else none
    | _, _, _ => none
  | _ => none

/-- strftime %Y.%m.%d. -/
def fmtDateDots (d : Date) : String :=
  SailPoint.pad4 d.year ++ "." ++ SailPoint.pad2 d.month ++ "." ++
    SailPoint.pad2 d.day

/-- The while loop of dates_in_range: append the formatted current date and
advance one day while current <= end.  The loop is written with an explicit
iteration budget; dates_in_range passes the exact number of loop entries
(end.ord + 1 - start.ord), and datesLoopFuel_spec below proves the budget
never truncates the loop, so this equals the source's unbounded loop. -/
def datesLoopFuel : Nat → Date → Date → List String
  | 0, _, _ => []
  | n + 1, endd, cur =>
    if Date.le cur endd then fmtDateDots cur :: datesLoopFuel n endd (nextDay cur)
    else []

/-- Embedding of ExabeamDataLake.dates_in_range: parse both calendar-date
strings, reject start >= end, reject a day difference above 10, otherwise
collect one %Y.%m.%d string per day of [start, end] inclusive.  The
function performs no network call. -/
def dates_in_range (start_time end_time : String) :
    Except String (List String) :=
  match parseDate start_time, parseDate end_time with
  | some ds, some de =>
    if Date.le de.1 ds.1 then .error "Start time must be before end time"
    else if ((de.1.ord : Int) - ds.1.ord) > 10 then
      .error "Difference between start time and end time must be less than or equal to 10 days"
    else .ok (datesLoopFuel (de.1.ord + 1 - ds.1.ord) de.1 ds.1)
  | _, _ => .error "ValueError: time data does not match format"

end ExabeamDL


namespace ExabeamDL

/-- C5: supplying limit together with a truthy page or page_size, or
supplying exactly one of page/page_size, makes calculate_page_parameters
raise a validation error identifying the illegal combination; the function
performs no network call. -/
theorem c5_pagination_conflict_rejected (page_arg page_size_arg limit_arg : PyArg)
    (h : (limit_arg.truthy = true ∧
            (page_arg.truthy = true ∨ page_size_arg.truthy = true)) ∨
          page_arg.truthy ≠ page_size_arg.truthy) :
    calculate_page_parameters page_arg page_size_arg limit_arg =
      .error "You can only provide limit alone or page and page_size together." := by
  cases hp : page_arg.truthy <;> cases hq : page_size_arg.truthy <;>
    cases hl : limit_arg.truthy <;>
    simp_all [calculate_page_parameters]

/-- Witness for C5 at a concrete illegal combination: page together with
limit but no page_size. -/
theorem c5_pagination_conflict_rejected_witness :
    calculate_page_parameters (.str "1") .null (.str "100") =
      .error "You can only provide limit alone or page and page_size together." :=
  c5_pagination_conflict_rejected (.str "1") .null (.str "100") (by decide)

/-- C6 counterexample: with limit supplied alone as the only key actually
present in the args dict (page and page_size keys absent), the defaults
page=1 and page_size=50 become truthy, so the page branch wins and the
result is (0, 50) instead of the claimed (0, limit) = (0, 100). -/
theorem c6_limit_alone_counterexample :
    calculate_page_parameters .absent .absent (.str "100") = .ok (0, 50) ∧
      ((0 : Int), (50 : Int)) ≠ ((0 : Int), (100 : Int)) := by
  constructor
  · rfl
  · decide

/-- C6 amended: for page and page_size supplied together as numeric strings
with page ≥ 1 and page_size ≥ 1 and no limit key value, the result is
(page*page_size - page_size, page_size).  For limit supplied as a nonzero
numeric string while the page and page_size keys are present but empty
(None or the empty string, as the platform passes unset arguments in the
unit tests), the result is (0, limit); when the page/page_size keys are
wholly absent the defaults take over and limit is ignored. -/
theorem c6_page_parameters_values :
    (∀ (ps1 ps2 : String) (p ps : Int) (limit_arg : PyArg),
        strToInt ps1 = some p → strToInt ps2 = some ps → 1 ≤ p → 1 ≤ ps →
        (limit_arg = .absent ∨ limit_arg = .null) →
        calculate_page_parameters (.str ps1) (.str ps2) limit_arg =
          .ok (p * ps - ps, ps)) ∧
    (∀ (ls : String) (l : Int) (page_arg page_size_arg : PyArg),
        strToInt ls = some l → l ≠ 0 →
        (page_arg = .null ∨ page_arg = .str "") →
        (page_size_arg = .null ∨ page_size_arg = .str "") →
        calculate_page_parameters page_arg page_size_arg (.str ls) =
          .ok (0, l)) := by
  have hempty : strToInt "" = none := by decide
  have h50 : strToInt "50" = some 50 := by decide
  have hne : ∀ (s : String) (n : Int), strToInt s = some n → s ≠ "" := by
    intro s n hs h
    subst h
    rw [hempty] at hs
    exact Option.noConfusion hs
  constructor
  · intro ps1 ps2 p ps limit_arg h1 h2 hp hps hl
    have hne1 := hne ps1 p h1
    have hne2 := hne ps2 ps h2
    have hp0 : p ≠ 0 := by omega
    have hps0 : ps ≠ 0 := by omega
    rcases hl with hl | hl <;>
      subst hl <;>
      simp [calculate_page_parameters, PyArg.truthy, PyArg.get, arg_to_number,
        hne1, hne2, h1, h2, h50, truthyNum, hp0, hps0]
  · intro ls l page_arg page_size_arg hls hl0 hpa hpsa
    have hnel := hne ls l hls
    rcases hpa with hpa | hpa <;> rcases hpsa with hpsa | hpsa <;>
      subst hpa <;> subst hpsa <;>
      simp [calculate_page_parameters, PyArg.truthy, PyArg.get, arg_to_number,
        hnel, hls, h50, truthyNum]

/-- Witness for C6 amended: (page=1, page_size=50) gives (0, 50), and
limit=100 with null page keys gives (0, 100). -/
theorem c6_page_parameters_values_witness :
    calculate_page_parameters (.str "1") (.str "50") .absent = .ok (0, 50) ∧
      calculate_page_parameters .null .null (.str "100") = .ok (0, 100) :=
  ⟨by
    have h := c6_page_parameters_values.1 "1" "50" 1 50 .absent (by decide)
      (by decide) (by decide) (by decide) (Or.inl rfl)
    simpa using h,
    by
    have h := c6_page_parameters_values.2 "100" 100 .null .null (by decide)
      (by decide) (Or.inl rfl) (Or.inl rfl)
    exact h⟩

/-- C10: the Exabeam DataLake client constructor ignores the caller's
verify flag: two configurations differing only in the insecure flag produce
identical BaseClient arguments, and the verify argument passed on is always
false. -/
theorem c10_verify_always_disabled :
    (∀ (url u pw : String) (proxy insecure1 insecure2 : Bool),
        clientInit url u pw (mainVerifyFlag insecure1) proxy =
          clientInit url u pw (mainVerifyFlag insecure2) proxy) ∧
    (∀ (url u pw : String) (proxy v : Bool),
        (clientInit url u pw v proxy).verify = false) := by
  exact ⟨fun _ _ _ _ _ _ => rfl, fun _ _ _ _ _ => rfl⟩

end ExabeamDL

namespace SailPoint

/-- C7: the normalizer tags a record "modified" exactly when both
timestamps exist and modified is strictly later than created, and "new"
otherwise; the _time field is the formatted modified time when the status
is "modified", else the formatted created time when created is present,
else it is set to the empty value None. -/
theorem c7_normalizer_status_and_time (e : SPRecord) :
    ((add_time_and_status_to_event e).entry_status = some "modified" ↔
      (∃ c m, e.created = some c ∧ e.modified = some m ∧ PyDateTime.lt c m)) ∧
    ((add_time_and_status_to_event e).entry_status = some "modified" ∨
      (add_time_and_status_to_event e).entry_status = some "new") ∧
    (∀ c m, e.created = some c → e.modified = some m → PyDateTime.lt c m →
      (add_time_and_status_to_event e).time = some (some m.strftimeZ)) ∧
    ((add_time_and_status_to_event e).entry_status = some "new" →
      ∀ c, e.created = some c →
        (add_time_and_status_to_event e).time = some (some c.strftimeZ)) ∧
    (e.created = none → (add_time_and_status_to_event e).time = some none) := by
  rcases e with ⟨c?, m?, st, tm⟩
  rcases c? with _ | c <;> rcases m? with _ | m <;>
    simp [add_time_and_status_to_event]
  by_cases hcm : PyDateTime.lt c m <;> simp [hcm]

/-- Witness for C7 on the spec's example record: created 2024-01-01T00:00:00
and modified 2024-01-02T00:00:00 give status modified with the modified
time formatted, and a record with only created gives status new with the
created time formatted. -/
theorem c7_normalizer_status_and_time_witness :
    (add_time_and_status_to_event
        { created := some ⟨2024, 1, 1, 0, 0, 0⟩,
          modified := some ⟨2024, 1, 2, 0, 0, 0⟩ }).time =
      some (some (PyDateTime.strftimeZ ⟨2024, 1, 2, 0, 0, 0⟩)) ∧
    (add_time_and_status_to_event
        { created := some ⟨2024, 1, 1, 0, 0, 0⟩, modified := none }).entry_status =
      some "new" := by
  constructor
  · exact (c7_normalizer_status_and_time
      { created := some ⟨2024, 1, 1, 0, 0, 0⟩,
        modified := some ⟨2024, 1, 2, 0, 0, 0⟩ }).2.2.1
      ⟨2024, 1, 1, 0, 0, 0⟩ ⟨2024, 1, 2, 0, 0, 0⟩ rfl rfl (by decide)
  · rcases (c7_normalizer_status_and_time
      { created := some ⟨2024, 1, 1, 0, 0, 0⟩, modified := none }).2.1 with h | h
    · rcases (c7_normalizer_status_and_time
        { created := some ⟨2024, 1, 1, 0, 0, 0⟩, modified := none }).1.mp h
        with ⟨c, m, _, hm, _⟩
      exact Option.noConfusion hm
    · exact h

/-- C8: applying the normalizer twice leaves every record list in the same
state as applying it once, because the recomputation reads only the
created/modified fields, which it never changes. -/
theorem c8_normalizer_idempotent (events : Option (List SPRecord)) :
    add_time_and_status_to_events (add_time_and_status_to_events events) =
      add_time_and_status_to_events events := by
  have h1 : ∀ e, add_time_and_status_to_event (add_time_and_status_to_event e) =
      add_time_and_status_to_event e := by
    intro e
    rcases e with ⟨c?, m?, st, tm⟩
    rcases c? with _ | c <;> rcases m? with _ | m <;>
      simp [add_time_and_status_to_event]
    by_cases hcm : PyDateTime.lt c m <;> simp [hcm, add_time_and_status_to_event]
  cases events with
  | none => rfl
  | some l => simp [add_time_and_status_to_events, List.map_map, Function.comp, h1]

/-- C9: when a nonempty token and a truthy expiry are cached and now is
before the expiry, get_token returns the cached token with the context
unchanged and performs no exchange; otherwise it performs exactly one
exchange and persists the new token with expiry now + expires_in - 60. -/
theorem c9_token_cache_fast_path (now : Int) (ctx : IntegrationContext)
    (resp : TokenResponse) (hnow : 0 ≤ now) :
    ((ctx.token ≠ "" ∧ ∃ v, ctx.expires = some v ∧ now < v) →
      get_token now ctx resp = (ctx.token, ctx, 0)) ∧
    ((¬ (ctx.token ≠ "" ∧ ∃ v, ctx.expires = some v ∧ now < v)) →
      get_token now ctx resp =
        (resp.access_token,
          { token := resp.access_token,
            expires := some (now + resp.expires_in - 60) }, 1)) := by
  constructor
  · rintro ⟨htok, v, hv, hlt⟩
    have hv0 : v ≠ 0 := by omega
    simp [get_token, hv, truthyExpires, htok, hv0, hlt]
  · intro hnot
    have hcond : ¬ (ctx.token ≠ "" ∧ truthyExpires ctx.expires = true ∧
        now < ctx.expires.getD 0) := by
      rintro ⟨htok, htr, hlt⟩
      rcases hx : ctx.expires with _ | v
      · rw [hx] at htr
        exact Bool.noConfusion htr
      · rw [hx] at hlt
        exact hnot ⟨htok, v, hx, by simpa using hlt⟩
    rcases ctx with ⟨tok, exp⟩
    simp only [get_token, hcond, if_neg]
    simp [generate_token]

/-- Witness for C9: a cached token valid until 100 at time 50 is returned
unchanged, and an expired cache at time 200 triggers one exchange with the
60-second margin applied. -/
theorem c9_token_cache_fast_path_witness :
    get_token 50 ⟨"tok", some 100⟩ ⟨"fresh", 600⟩ = ("tok", ⟨"tok", some 100⟩, 0) ∧
    get_token 200 ⟨"tok", some 100⟩ ⟨"fresh", 600⟩ =
      ("fresh", ⟨"fresh", some 740⟩, 1) := by
  constructor
  · exact (c9_token_cache_fast_path 50 ⟨"tok", some 100⟩ ⟨"fresh", 600⟩
      (by decide)).1 ⟨by decide, 100, rfl, by decide⟩
  · have h := (c9_token_cache_fast_path 200 ⟨"tok", some 100⟩ ⟨"fresh", 600⟩
      (by decide)).2 (by rintro ⟨-, v, hv, hlt⟩; injection hv with hv; omega)
    simpa using h

/-- C2: on an empty first fetch the source builds next_run from the loop
locals last_fetched_id/last_fetched_creation_date that were never assigned,
so fetch_events raises UnboundLocalError (modelled as none) instead of
returning the input cursor unchanged. -/
theorem c2_empty_first_fetch_crashes :
    fetch_events (fun _ _ _ => []) ⟨none, none⟩ 1 = none := by
  rw [fetch_events, fetchLoop]
  simp

end SailPoint

namespace SailPoint

/-- Soundness of the fetch loop, stated over a general loop state.  The
invariant relates the accumulated events, the loop locals and the current
last_run dict; on successful exit the next_run cursor is the id/created
pair of the last accumulated event, and the loop stopped either because the
remaining budget was exhausted or because the fetch at the final cursor
returned no events. -/
theorem fetchLoop_sound (s : SearchFn) :
    ∀ (n : Nat) (budget : Int) (last_run : SPLastRun) (acc : List SPEvent)
      (lf : Option (Nat × String)) (nr : SPLastRun) (evs : List SPEvent),
      budget.toNat ≤ n →
      (match lf with
        | none => acc = []
        | some p => acc.getLast? = some ⟨p.1, p.2⟩ ∧
            last_run = ⟨some p.1, some p.2⟩) →
      fetchLoop s last_run budget acc lf = some (nr, evs) →
      ((∃ e, evs.getLast? = some e ∧ nr = ⟨some e.id, some e.created⟩) ∧
        ∃ newEvents, evs = acc ++ newEvents ∧
          ((budget - newEvents.length ≤ 0) ∨
            s (nr.prev_id.getD 0) (nr.prev_date.getD DEFAULT_LOOKBACK)
              (budget - newEvents.length) = [])) := by
  intro n
  induction n with
  | zero =>
    intro budget last_run acc lf nr evs hb hinv heq
    have hble : budget ≤ 0 := by omega
    rw [fetchLoop, dif_pos hble] at heq
    rcases lf with _ | p
    · exact Option.noConfusion heq
    · obtain ⟨hlast, hrun⟩ := hinv
      simp only [Option.map_some', Option.some.injEq, Prod.mk.injEq] at heq
      obtain ⟨hnr, hevs⟩ := heq
      subst hnr
      subst hevs
      exact ⟨⟨⟨p.1, p.2⟩, hlast, rfl⟩, [], (List.append_nil acc).symm,
        Or.inl (by simpa using hble)⟩
  | succ n ih =>
    intro budget last_run acc lf nr evs hb hinv heq
    by_cases hble : budget ≤ 0
    · rw [fetchLoop, dif_pos hble] at heq
      rcases lf with _ | p
      · exact Option.noConfusion heq
      · obtain ⟨hlast, hrun⟩ := hinv
        simp only [Option.map_some', Option.some.injEq, Prod.mk.injEq] at heq
        obtain ⟨hnr, hevs⟩ := heq
        subst hnr
        subst hevs
        exact ⟨⟨⟨p.1, p.2⟩, hlast, rfl⟩, [], (List.append_nil acc).symm,
          Or.inl (by simpa using hble)⟩
    · rw [fetchLoop, dif_neg hble] at heq
      simp only [] at heq
      split at heq
      case _ h =>
        rcases lf with _ | p
        · exact Option.noConfusion heq
        · obtain ⟨hlast, hrun⟩ := hinv
          subst hrun
          simp only [Option.map_some', Option.some.injEq, Prod.mk.injEq] at heq
          obtain ⟨hnr, hevs⟩ := heq
          subst hnr
          subst hevs
          refine ⟨⟨⟨p.1, p.2⟩, hlast, rfl⟩, [], (List.append_nil acc).symm,
            Or.inr ?_⟩
          have hE := List.getLast?_eq_none_iff.mp h
          simpa using hE
      case _ lastE h =>
        have hEne : s (last_run.prev_id.getD 0)
            (last_run.prev_date.getD DEFAULT_LOOKBACK) budget ≠ [] := by
          intro he
          rw [he] at h
          simp at h
        have hlen : 1 ≤ (s (last_run.prev_id.getD 0)
            (last_run.prev_date.getD DEFAULT_LOOKBACK) budget).length :=
          List.length_pos.mpr hEne
        have hb2 : (budget - (s (last_run.prev_id.getD 0)
            (last_run.prev_date.getD DEFAULT_LOOKBACK) budget).length).toNat ≤ n := by
          have hb3 : ¬ budget ≤ 0 := hble
          omega
        have hinv2 : (acc ++ s (last_run.prev_id.getD 0)
              (last_run.prev_date.getD DEFAULT_LOOKBACK) budget).getLast? =
            some (⟨lastE.id, lastE.created⟩ : SPEvent) := by
          rw [List.getLast?_append_of_ne_nil _ hEne, h]
        obtain ⟨hcursor, newE, hevs, hrest⟩ :=
          ih (budget - (s (last_run.prev_id.getD 0)
              (last_run.prev_date.getD DEFAULT_LOOKBACK) budget).length)
            ⟨some lastE.id, some lastE.created⟩
            (acc ++ s (last_run.prev_id.getD 0)
              (last_run.prev_date.getD DEFAULT_LOOKBACK) budget)
            (some (lastE.id, lastE.created)) nr evs hb2 ⟨hinv2, rfl⟩ heq
        refine ⟨hcursor,
          s (last_run.prev_id.getD 0) (last_run.prev_date.getD DEFAULT_LOOKBACK)
              budget ++ newE, ?_, ?_⟩
        · rw [hevs, List.append_assoc]
        · have harith : budget - ((s (last_run.prev_id.getD 0)
              (last_run.prev_date.getD DEFAULT_LOOKBACK) budget ++ newE).length : Int) =
              budget - (s (last_run.prev_id.getD 0)
                (last_run.prev_date.getD DEFAULT_LOOKBACK) budget).length -
                newE.length := by
            simp [List.length_append]
            omega
          rw [harith]
          exact hrest

end SailPoint

namespace SailPoint

/-- One unfolding step of the fetch loop, stated with a non-dependent match
so that concrete instances evaluate by rewriting. -/
theorem fetchLoop_step (s : SearchFn) (last_run : SPLastRun) (budget : Int)
    (all_events : List SPEvent) (lastFetched : Option (Nat × String)) :
    fetchLoop s last_run budget all_events lastFetched =
      if budget ≤ 0 then
        lastFetched.map (fun p => (⟨some p.1, some p.2⟩, all_events))
      else
        match (s (last_run.prev_id.getD 0)
            (last_run.prev_date.getD DEFAULT_LOOKBACK) budget).getLast? with
        | none =>
          lastFetched.map (fun p => (⟨some p.1, some p.2⟩, all_events))
        | some lastE =>
          fetchLoop s ⟨some lastE.id, some lastE.created⟩
            (budget - (s (last_run.prev_id.getD 0)
              (last_run.prev_date.getD DEFAULT_LOOKBACK) budget).length)
            (all_events ++ s (last_run.prev_id.getD 0)
              (last_run.prev_date.getD DEFAULT_LOOKBACK) budget)
            (some (lastE.id, lastE.created)) := by
  rw [fetchLoop]
  by_cases hb : budget ≤ 0
  · simp [hb]
  · simp only [hb, dif_neg, if_neg, not_false_iff]
    split
    all_goals rename_i h2
    all_goals rw [h2]

/-- C3: whenever fetch_events returns, the next_run cursor is exactly the
id/creation-date pair of the last event the vendor returned in that run (in
particular a pair taken from an actually returned record), and the loop
stopped either because the remaining budget reached zero or below, or
because the fetch at the final cursor with the remaining budget returned no
records. -/
theorem c3_cursor_from_returned_record_and_stop (s : SearchFn)
    (last_run : SPLastRun) (budget : Int) (nr : SPLastRun)
    (evs : List SPEvent)
    (h : fetch_events s last_run budget = some (nr, evs)) :
    (∃ e, e ∈ evs ∧ evs.getLast? = some e ∧
      nr = ⟨some e.id, some e.created⟩) ∧
    ((budget - evs.length ≤ 0) ∨
      s (nr.prev_id.getD 0) (nr.prev_date.getD DEFAULT_LOOKBACK)
        (budget - evs.length) = []) := by
  obtain ⟨⟨e, hlast, hnr⟩, newE, hevs, hrest⟩ :=
    fetchLoop_sound s budget.toNat budget last_run [] none nr evs le_rfl rfl h
  have hnew : newE = evs := by simpa using hevs.symm
  subst hnew
  exact ⟨⟨e, List.mem_of_mem_getLast? (by simp [hlast]), hlast, hnr⟩, hrest⟩

/-- Witness for C3: a vendor serving one event with id 7 and then nothing,
with a budget of 5, yields that event, a cursor equal to its id/created
pair, and a final empty fetch with remaining budget 4. -/
theorem c3_cursor_from_returned_record_and_stop_witness :
    fetch_events singleEventSearch ⟨none, none⟩ 5 =
      some (⟨some 7, some "t"⟩, [⟨7, "t"⟩]) ∧
    ((∃ e, e ∈ [(⟨7, "t"⟩ : SPEvent)] ∧
        ([(⟨7, "t"⟩ : SPEvent)]).getLast? = some e ∧
        (⟨some 7, some "t"⟩ : SPLastRun) = ⟨some e.id, some e.created⟩) ∧
      (((5 : Int) - ([(⟨7, "t"⟩ : SPEvent)]).length ≤ 0) ∨
        singleEventSearch ((⟨some 7, some "t"⟩ : SPLastRun).prev_id.getD 0)
          ((⟨some 7, some "t"⟩ : SPLastRun).prev_date.getD DEFAULT_LOOKBACK)
          (5 - ([(⟨7, "t"⟩ : SPEvent)]).length) = [])) := by
  have hfe : fetch_events singleEventSearch ⟨none, none⟩ 5 =
      some (⟨some 7, some "t"⟩, [⟨7, "t"⟩]) := by
    simp [fetch_events, fetchLoop_step, singleEventSearch]
  exact ⟨hfe,
    c3_cursor_from_returned_record_and_stop singleEventSearch ⟨none, none⟩
      5 ⟨some 7, some "t"⟩ [⟨7, "t"⟩] hfe⟩

end SailPoint

namespace SailPoint

/-- In a strictly ascending-by-id list, every element's id is bounded by the
id of the last element. -/
theorem pairwise_id_le_getLast (T : List SPEvent)
    (hT : T.Pairwise (fun a b => a.id < b.id)) (e : SPEvent)
    (he : T.getLast? = some e) : ∀ a ∈ T, a.id ≤ e.id := by
  intro a ha
  have hne : T ≠ [] := by
    intro h0
    rw [h0] at he
    simp at he
  have heq : e = T.getLast hne := by
    have := List.getLast?_eq_getLast T hne
    rw [he] at this
    exact (Option.some.injEq _ _).mp this
  have hsplit : T.dropLast ++ [T.getLast hne] = T := List.dropLast_append_getLast hne
  rw [← hsplit] at hT ha
  obtain ⟨h1, h2, hcross⟩ := List.pairwise_append.mp hT
  rcases List.mem_append.mp ha with hd | hl
  · have := hcross a hd (T.getLast hne) (List.mem_singleton_self _)
    rw [heq]
    omega
  · rw [List.mem_singleton.mp hl, heq]

/-- Filtering a strictly ascending-by-id list by ids above the last id of
its B-prefix yields exactly the remainder of the list. -/
theorem filter_gt_last_take (stream : List SPEvent) (B : Nat)
    (hsorted : stream.Pairwise (fun a b => a.id < b.id)) (e : SPEvent)
    (he : (stream.take B).getLast? = some e) :
    stream.filter (fun x => e.id < x.id) = stream.drop B := by
  have hsplit : stream.take B ++ stream.drop B = stream := List.take_append_drop B stream
  have hPT : (stream.take B ++ stream.drop B).Pairwise (fun a b => a.id < b.id) := by
    rw [hsplit]
    exact hsorted
  obtain ⟨hT, hD, hcross⟩ := List.pairwise_append.mp hPT
  have heT : e ∈ stream.take B := List.mem_of_mem_getLast? (by simp [he])
  have hfT : (stream.take B).filter (fun x => e.id < x.id) = [] := by
    refine List.filter_eq_nil_iff.mpr ?_
    intro a ha
    have := pairwise_id_le_getLast (stream.take B) hT e he a ha
    simp
    omega
  have hfD : (stream.drop B).filter (fun x => e.id < x.id) = stream.drop B := by
    refine List.filter_eq_self.mpr ?_
    intro b hb
    have := hcross e heT b hb
    simpa using this
  calc stream.filter (fun x => e.id < x.id)
      = (stream.take B ++ stream.drop B).filter (fun x => e.id < x.id) := by
        rw [hsplit]
    _ = (stream.take B).filter (fun x => e.id < x.id) ++
          (stream.drop B).filter (fun x => e.id < x.id) := List.filter_append _ _
    _ = stream.drop B := by rw [hfT, hfD, List.nil_append]

/-- If the first fetch of a loop returns a nonempty batch that uses up the
whole budget, the loop returns after that single fetch, with the cursor at
the batch's last event and the batch appended to the accumulator. -/
theorem fetchLoop_exhaust (s : SearchFn) (last_run : SPLastRun) (budget : Int)
    (acc : List SPEvent) (lf : Option (Nat × String)) (lastE : SPEvent)
    (hpos : 0 < budget)
    (hE : (s (last_run.prev_id.getD 0)
      (last_run.prev_date.getD DEFAULT_LOOKBACK) budget).getLast? = some lastE)
    (hfull : budget ≤ (s (last_run.prev_id.getD 0)
      (last_run.prev_date.getD DEFAULT_LOOKBACK) budget).length) :
    fetchLoop s last_run budget acc lf =
      some (⟨some lastE.id, some lastE.created⟩,
        acc ++ s (last_run.prev_id.getD 0)
          (last_run.prev_date.getD DEFAULT_LOOKBACK) budget) := by
  rw [fetchLoop_step, if_neg (not_le.mpr hpos), hE]
  show fetchLoop s ⟨some lastE.id, some lastE.created⟩
      (budget - (s (last_run.prev_id.getD 0)
        (last_run.prev_date.getD DEFAULT_LOOKBACK) budget).length)
      (acc ++ s (last_run.prev_id.getD 0)
        (last_run.prev_date.getD DEFAULT_LOOKBACK) budget)
      (some (lastE.id, lastE.created)) = _
  rw [fetchLoop_step, if_pos (by omega)]
  rfl

/-- C1: over an ascending-by-id stream of 2B records served faithfully,
running fetch_events with budget B from the empty cursor returns exactly
the first B records with the cursor at the B-th record's id/created pair,
and running it again with budget B from that cursor returns exactly the
remaining B records; the two batches are disjoint and concatenate to the
whole stream in id order. -/
theorem c1_two_budget_b_runs_partition_stream (B : Nat) (stream : List SPEvent)
    (hB : 1 ≤ B) (hlen : stream.length = 2 * B)
    (hsorted : stream.Pairwise (fun a b => a.id < b.id))
    (hpos : ∀ e ∈ stream, 0 < e.id) :
    ∃ lastE run2,
      (stream.take B).getLast? = some lastE ∧
      fetch_events (faithfulSearch stream) ⟨none, none⟩ (B : Int) =
        some (⟨some lastE.id, some lastE.created⟩, stream.take B) ∧
      fetch_events (faithfulSearch stream)
          ⟨some lastE.id, some lastE.created⟩ (B : Int) =
        some (run2, stream.drop B) ∧
      stream.take B ++ stream.drop B = stream ∧
      (stream.take B).length = B ∧
      (stream.drop B).length = B ∧
      (∀ e ∈ stream.take B, e ∉ stream.drop B) := by
  have hBpos : (0 : Int) < (B : Int) := by exact_mod_cast hB
  have hlenT : (stream.take B).length = B := by
    rw [List.length_take]
    omega
  have hlenD : (stream.drop B).length = B := by
    rw [List.length_drop]
    omega
  have hTne : stream.take B ≠ [] := by
    intro h0
    rw [h0] at hlenT
    simp only [List.length_nil] at hlenT
    omega
  have hDne : stream.drop B ≠ [] := by
    intro h0
    rw [h0] at hlenD
    simp only [List.length_nil] at hlenD
    omega
  -- the first fetch returns the filtered stream truncated to B
  have hfilter0 : stream.filter (fun x => 0 < x.id) = stream := by
    refine List.filter_eq_self.mpr ?_
    intro a ha
    simpa using hpos a ha
  have hsearch1 : ∀ d : String, faithfulSearch stream 0 d (B : Int) = stream.take B := by
    intro d
    rw [faithfulSearch]
    rw [hfilter0]
    congr 1
  set lastE := (stream.take B).getLast hTne with hlastE
  have he : (stream.take B).getLast? = some lastE :=
    List.getLast?_eq_getLast _ hTne
  have hcall1 : fetch_events (faithfulSearch stream) ⟨none, none⟩ (B : Int) =
      some (⟨some lastE.id, some lastE.created⟩, stream.take B) := by
    rw [fetch_events]
    have hx := fetchLoop_exhaust (faithfulSearch stream) ⟨none, none⟩ (B : Int)
      [] none lastE hBpos
      (by simpa [hsearch1] using he)
      (by simp [hsearch1, hlenT])
    simpa [hsearch1] using hx
  -- the second fetch returns the rest of the stream
  have hsearch2 : faithfulSearch stream lastE.id lastE.created (B : Int) =
      stream.drop B := by
    rw [faithfulSearch]
    have hf := filter_gt_last_take stream B hsorted lastE he
    rw [hf]
    rw [List.take_of_length_le]
    rw [hlenD]
    omega
  have hlastE2 : (stream.drop B).getLast? = some ((stream.drop B).getLast hDne) :=
    List.getLast?_eq_getLast _ hDne
  have hcall2 : fetch_events (faithfulSearch stream)
      ⟨some lastE.id, some lastE.created⟩ (B : Int) =
      some (⟨some ((stream.drop B).getLast hDne).id,
        some ((stream.drop B).getLast hDne).created⟩, stream.drop B) := by
    rw [fetch_events]
    have hx := fetchLoop_exhaust (faithfulSearch stream)
      ⟨some lastE.id, some lastE.created⟩ (B : Int) [] none
      ((stream.drop B).getLast hDne) hBpos
      (by simpa [hsearch2] using hlastE2)
      (by simp [hsearch2, hlenD])
    simpa [hsearch2] using hx
  have hdisj : ∀ e ∈ stream.take B, e ∉ stream.drop B := by
    intro e heT heD
    have hPT : (stream.take B ++ stream.drop B).Pairwise
        (fun a b => a.id < b.id) := by
      rw [List.take_append_drop]
      exact hsorted
    obtain ⟨-, -, hcross⟩ := List.pairwise_append.mp hPT
    have := hcross e heT e heD
    omega
  exact ⟨lastE, _, he, hcall1, hcall2, List.take_append_drop B stream,
    hlenT, hlenD, hdisj⟩

/-- Witness for C1 with B = 1 over the two-record stream with ids 1, 2. -/
theorem c1_two_budget_b_runs_partition_stream_witness :
    ∃ lastE run2,
      (([⟨1, "a"⟩, ⟨2, "b"⟩] : List SPEvent).take 1).getLast? = some lastE ∧
      fetch_events (faithfulSearch [⟨1, "a"⟩, ⟨2, "b"⟩]) ⟨none, none⟩ (1 : Int) =
        some (⟨some lastE.id, some lastE.created⟩,
          ([⟨1, "a"⟩, ⟨2, "b"⟩] : List SPEvent).take 1) ∧
      fetch_events (faithfulSearch [⟨1, "a"⟩, ⟨2, "b"⟩])
          ⟨some lastE.id, some lastE.created⟩ (1 : Int) =
        some (run2, ([⟨1, "a"⟩, ⟨2, "b"⟩] : List SPEvent).drop 1) ∧
      ([⟨1, "a"⟩, ⟨2, "b"⟩] : List SPEvent).take 1 ++
        ([⟨1, "a"⟩, ⟨2, "b"⟩] : List SPEvent).drop 1 = [⟨1, "a"⟩, ⟨2, "b"⟩] ∧
      (([⟨1, "a"⟩, ⟨2, "b"⟩] : List SPEvent).take 1).length = 1 ∧
      (([⟨1, "a"⟩, ⟨2, "b"⟩] : List SPEvent).drop 1).length = 1 ∧
      (∀ e ∈ ([⟨1, "a"⟩, ⟨2, "b"⟩] : List SPEvent).take 1,
        e ∉ ([⟨1, "a"⟩, ⟨2, "b"⟩] : List SPEvent).drop 1) :=
  c1_two_budget_b_runs_partition_stream 1 [⟨1, "a"⟩, ⟨2, "b"⟩]
    (by decide) (by decide) (by decide) (by decide)

end SailPoint

namespace ExabeamDL

/-- Every real month has at least one day. -/
theorem daysInMonth_pos (y m : Nat) (h1 : 1 ≤ m) (h2 : m ≤ 12) :
    1 ≤ daysInMonth y m := by
  interval_cases m <;> cases h : isLeapYear y <;> simp [daysInMonth, h]

/-- Advancing a valid date by one day yields a valid date. -/
theorem valid_nextDay {d : Date} (h : d.valid) : (nextDay d).valid := by
  obtain ⟨h1, h2, h3, h4⟩ := h
  unfold nextDay
  split
  · rename_i hlt
    refine ⟨h1, h2, ?_, ?_⟩
    · show 1 ≤ d.day + 1
      omega
    · show d.day + 1 ≤ daysInMonth d.year d.month
      omega
  · split
    · rename_i hmon
      refine ⟨?_, ?_, ?_, ?_⟩
      · show 1 ≤ d.month + 1
        omega
      · show d.month + 1 ≤ 12
        omega
      · exact le_refl 1
      · show 1 ≤ daysInMonth d.year (d.month + 1)
        exact daysInMonth_pos d.year (d.month + 1) (by omega) (by omega)
    · refine ⟨le_refl 1, by norm_num, le_refl 1, ?_⟩
      show 1 ≤ daysInMonth (d.year + 1) 1
      simp [daysInMonth]

/-- The months of a year sum to its length. -/
theorem daysBeforeMonth_13 (y : Nat) : daysBeforeMonth y 13 = daysInYear y := by
  cases h : isLeapYear y <;>
    simp [daysBeforeMonth, daysInMonth, daysInYear, h]

/-- Advancing one day advances the ordinal by one. -/
theorem ord_nextDay {d : Date} (h : d.valid) : (nextDay d).ord = d.ord + 1 := by
  obtain ⟨h1, h2, h3, h4⟩ := h
  unfold nextDay
  split
  · rename_i hlt
    show daysBeforeYear d.year + daysBeforeMonth d.year d.month + (d.day + 1) =
      daysBeforeYear d.year + daysBeforeMonth d.year d.month + d.day + 1
    omega
  · rename_i hday
    split
    · rename_i hmon
      have hdd : d.day = daysInMonth d.year d.month := by omega
      have hstep : daysBeforeMonth d.year (d.month + 1) =
          daysBeforeMonth d.year d.month + daysInMonth d.year d.month := rfl
      show daysBeforeYear d.year + daysBeforeMonth d.year (d.month + 1) + 1 =
        daysBeforeYear d.year + daysBeforeMonth d.year d.month + d.day + 1
      omega
    · rename_i hmon
      have hm : d.month = 12 := by omega
      have hdim : daysInMonth d.year 12 = 31 := by simp [daysInMonth]
      have hdd : d.day = 31 := by
        rw [hm, hdim] at h4 hday
        omega
      have hyear : daysBeforeYear (d.year + 1) =
          daysBeforeYear d.year + daysInYear d.year := rfl
      have hm1 : daysBeforeMonth (d.year + 1) 1 = 0 := by
        simp [daysBeforeMonth, daysInMonth]
      have h13 := daysBeforeMonth_13 d.year
      have h13b : daysBeforeMonth d.year 13 =
          daysBeforeMonth d.year 12 + daysInMonth d.year 12 := rfl
      show daysBeforeYear (d.year + 1) + daysBeforeMonth (d.year + 1) 1 + 1 =
        daysBeforeYear d.year + daysBeforeMonth d.year d.month + d.day + 1
      rw [hm, hdd, hyear, hm1]
      omega

end ExabeamDL

namespace ExabeamDL

/-- daysBeforeMonth is monotone in the month. -/
theorem daysBeforeMonth_mono (y : Nat) {m1 m2 : Nat} (h : m1 ≤ m2) :
    daysBeforeMonth y m1 ≤ daysBeforeMonth y m2 := by
  induction m2 with
  | zero =>
    have hm : m1 = 0 := by omega
    subst hm
    exact le_refl _
  | succ k ih =>
    rcases Nat.lt_or_ge m1 (k + 1) with hlt | hge
    · have hk := ih (by omega)
      have hstep : daysBeforeMonth y (k + 1) =
          daysBeforeMonth y k + daysInMonth y k := rfl
      omega
    · have hm : m1 = k + 1 := by omega
      subst hm
      exact le_refl _

/-- daysBeforeYear is monotone in the year. -/
theorem daysBeforeYear_mono {y1 y2 : Nat} (h : y1 ≤ y2) :
    daysBeforeYear y1 ≤ daysBeforeYear y2 := by
  induction y2 with
  | zero =>
    have hy : y1 = 0 := by omega
    subst hy
    exact le_refl _
  | succ k ih =>
    rcases Nat.lt_or_ge y1 (k + 1) with hlt | hge
    · have hk := ih (by omega)
      have hstep : daysBeforeYear (k + 1) =
          daysBeforeYear k + daysInYear k := rfl
      have hpos : 365 ≤ daysInYear k := by
        unfold daysInYear
        split <;> omega
      omega
    · have hy : y1 = k + 1 := by omega
      subst hy
      exact le_refl _

/-- A valid date's ordinal stays within its year's slice of the timeline. -/
theorem ord_ub {d : Date} (h : d.valid) : d.ord ≤ daysBeforeYear (d.year + 1) := by
  obtain ⟨h1, h2, h3, h4⟩ := h
  have hstep : daysBeforeMonth d.year (d.month + 1) =
      daysBeforeMonth d.year d.month + daysInMonth d.year d.month := rfl
  have hmono : daysBeforeMonth d.year (d.month + 1) ≤ daysBeforeMonth d.year 13 :=
    daysBeforeMonth_mono d.year (by omega)
  have h13 := daysBeforeMonth_13 d.year
  have hyr : daysBeforeYear (d.year + 1) =
      daysBeforeYear d.year + daysInYear d.year := rfl
  show daysBeforeYear d.year + daysBeforeMonth d.year d.month + d.day ≤ _
  omega

/-- Strictly earlier valid dates have strictly smaller ordinals. -/
theorem ord_lt_of_lt {a b : Date} (ha : a.valid) (hb : b.valid)
    (h : Date.lt a b) : a.ord < b.ord := by
  obtain ⟨ha1, ha2, ha3, ha4⟩ := ha
  obtain ⟨hb1, hb2, hb3, hb4⟩ := hb
  rcases h with hy | ⟨hy, hm | ⟨hm, hd⟩⟩
  · have h1 : a.ord ≤ daysBeforeYear (a.year + 1) := ord_ub ⟨ha1, ha2, ha3, ha4⟩
    have h2 : daysBeforeYear (a.year + 1) ≤ daysBeforeYear b.year :=
      daysBeforeYear_mono (by omega)
    have h3 : daysBeforeYear b.year + 1 ≤ b.ord := by
      show daysBeforeYear b.year + 1 ≤
        daysBeforeYear b.year + daysBeforeMonth b.year b.month + b.day
      omega
    omega
  · have hstep : daysBeforeMonth a.year (a.month + 1) =
        daysBeforeMonth a.year a.month + daysInMonth a.year a.month := rfl
    have hmono : daysBeforeMonth a.year (a.month + 1) ≤ daysBeforeMonth b.year b.month := by
      rw [hy]
      exact daysBeforeMonth_mono b.year (by omega)
    show daysBeforeYear a.year + daysBeforeMonth a.year a.month + a.day <
      daysBeforeYear b.year + daysBeforeMonth b.year b.month + b.day
    rw [hy] at ha4 hstep hmono ⊢
    omega
  · show daysBeforeYear a.year + daysBeforeMonth a.year a.month + a.day <
      daysBeforeYear b.year + daysBeforeMonth b.year b.month + b.day
    rw [hy, hm]
    omega

/-- The Python datetime order and the ordinal order agree on valid dates. -/
theorem le_iff_ord_le {a b : Date} (ha : a.valid) (hb : b.valid) :
    Date.le a b ↔ a.ord ≤ b.ord := by
  constructor
  · intro h
    unfold Date.le at h
    rcases (show Date.lt a b ∨ (a.year = b.year ∧ a.month = b.month ∧ a.day = b.day)
        by unfold Date.lt; omega) with hlt | ⟨e1, e2, e3⟩
    · exact le_of_lt (ord_lt_of_lt ha hb hlt)
    · have heq : a = b := by
        obtain ⟨ay, am, ad⟩ := a
        obtain ⟨by2, bm, bd⟩ := b
        simp only at e1 e2 e3
        rw [e1, e2, e3]
      rw [heq]
  · intro h
    by_contra hnot
    have hlt : Date.lt b a := by
      unfold Date.le at hnot
      unfold Date.lt
      omega
    have := ord_lt_of_lt hb ha hlt
    omega

/-- Ordinals are injective on valid dates. -/
theorem ord_inj {a b : Date} (ha : a.valid) (hb : b.valid)
    (h : a.ord = b.ord) : a = b := by
  rcases (by unfold Date.lt; omega :
      Date.lt a b ∨ (a.year = b.year ∧ a.month = b.month ∧ a.day = b.day) ∨
        Date.lt b a) with hlt | heq | hgt
  · have := ord_lt_of_lt ha hb hlt
    omega
  · obtain ⟨e1, e2, e3⟩ := heq
    obtain ⟨ay, am, ad⟩ := a
    obtain ⟨by2, bm, bd⟩ := b
    simp only at e1 e2 e3
    rw [e1, e2, e3]
  · have := ord_lt_of_lt hb ha hgt
    omega

/-- Iterated day stepping preserves validity. -/
theorem iterate_nextDay_valid {d : Date} (h : d.valid) :
    ∀ k, (nextDay^[k] d).valid := by
  intro k
  induction k generalizing d with
  | zero => exact h
  | succ n ih =>
    rw [Function.iterate_succ_apply]
    exact ih (valid_nextDay h)

/-- Iterated day stepping advances the ordinal by the step count. -/
theorem iterate_nextDay_ord {d : Date} (h : d.valid) :
    ∀ k, (nextDay^[k] d).ord = d.ord + k := by
  intro k
  induction k generalizing d with
  | zero => rfl
  | succ n ih =>
    rw [Function.iterate_succ_apply, ih (valid_nextDay h), ord_nextDay h]
    omega

/-- The bounded loop of dates_in_range, with any budget at least the exact
iteration count, produces one formatted string per day from start while the
current day is at most the end day. -/
theorem datesLoopFuel_spec :
    ∀ (n : Nat) (endd cur : Date), endd.valid → cur.valid →
      endd.ord + 1 - cur.ord ≤ n →
      datesLoopFuel n endd cur =
        (List.range (endd.ord + 1 - cur.ord)).map
          (fun i => fmtDateDots (nextDay^[i] cur)) := by
  intro n
  induction n with
  | zero =>
    intro endd cur he hc hn
    have h0 : endd.ord + 1 - cur.ord = 0 := by omega
    rw [h0]
    rfl
  | succ k ih =>
    intro endd cur he hc hn
    rcases Nat.lt_or_ge endd.ord cur.ord with hgt | hord
    · have h0 : endd.ord + 1 - cur.ord = 0 := by omega
      rw [h0]
      have hnle : ¬ Date.le cur endd := by
        rw [le_iff_ord_le hc he]
        omega
      simp only [datesLoopFuel, if_neg hnle]
      rfl
    · have hle : Date.le cur endd := (le_iff_ord_le hc he).mpr hord
      have hnext : (nextDay cur).ord = cur.ord + 1 := ord_nextDay hc
      have hrec := ih endd (nextDay cur) he (valid_nextDay hc) (by omega)
      simp only [datesLoopFuel, if_pos hle, hrec]
      have hsplit : endd.ord + 1 - cur.ord = (endd.ord + 1 - (nextDay cur).ord) + 1 := by
        omega
      have hmap : (List.range ((endd.ord + 1 - (nextDay cur).ord) + 1)).map
            (fun i => fmtDateDots (nextDay^[i] cur)) =
          fmtDateDots cur :: (List.range (endd.ord + 1 - (nextDay cur).ord)).map
            (fun i => fmtDateDots (nextDay^[i] (nextDay cur))) := by
        rw [List.range_succ_eq_map, List.map_cons, List.map_map]
        refine congrArg₂ List.cons rfl ?_
        congr 1
      rw [hsplit, hmap]
  
end ExabeamDL

namespace ExabeamDL

/-- Unfolding of dates_in_range once both parses succeed. -/
theorem dates_in_range_eq (start_s end_s : String) (d1 d2 : Date)
    (h1 : d1.valid) (h2 : d2.valid)
    (hps : parseDate start_s = some ⟨d1, h1⟩)
    (hpe : parseDate end_s = some ⟨d2, h2⟩) :
    dates_in_range start_s end_s =
      if Date.le d2 d1 then .error "Start time must be before end time"
      else if ((d2.ord : Int) - d1.ord) > 10 then
        .error "Difference between start time and end time must be less than or equal to 10 days"
      else .ok (datesLoopFuel (d2.ord + 1 - d1.ord) d2 d1) := by
  unfold dates_in_range
  rw [hps, hpe]

/-- C4 counterexample: the range 2024-05-01 .. 2024-05-11 spans 11 days
counted inclusively, which exceeds 10, yet dates_in_range accepts it and
returns 11 daily strings, because the source only rejects a difference
end - start above 10 days. -/
theorem c4_inclusive_span_11_days_not_rejected :
    (Date.ord ⟨2024, 5, 11⟩ + 1 - Date.ord ⟨2024, 5, 1⟩ = 11) ∧
    (∃ l, dates_in_range "2024-05-01" "2024-05-11" = .ok l ∧ l.length = 11) := by
  have hcount : Date.ord ⟨2024, 5, 11⟩ + 1 - Date.ord ⟨2024, 5, 1⟩ = 11 := by
    simp only [Date.ord]
    omega
  refine ⟨hcount, ?_⟩
  have hle : ¬ Date.le (⟨2024, 5, 11⟩ : Date) ⟨2024, 5, 1⟩ := by decide
  have hdiff : ((Date.ord ⟨2024, 5, 11⟩ : Int) - Date.ord ⟨2024, 5, 1⟩) = 10 := by
    simp only [Date.ord]
    omega
  rw [dates_in_range_eq "2024-05-01" "2024-05-11" ⟨2024, 5, 1⟩ ⟨2024, 5, 11⟩
    (by decide) (by decide) (by decide) (by decide), if_neg hle, hdiff]
  norm_num
  rw [hcount]
  decide

/-- C4 amended: dates_in_range rejects start >= end, rejects a day
difference end - start above 10 (that is, an inclusive day count above 11,
not above 10 as claimed), and otherwise returns exactly one %Y.%m.%d string
per day of [start, end] inclusive, the i-th being start plus i days and the
last being the end date; all without any network call. -/
theorem c4_dates_in_range_amended (start_s end_s : String) (d1 d2 : Date)
    (h1 : d1.valid) (h2 : d2.valid)
    (hps : parseDate start_s = some ⟨d1, h1⟩)
    (hpe : parseDate end_s = some ⟨d2, h2⟩) :
    (Date.le d2 d1 →
      dates_in_range start_s end_s =
        .error "Start time must be before end time") ∧
    (¬ Date.le d2 d1 → 10 < (d2.ord : Int) - d1.ord →
      dates_in_range start_s end_s =
        .error "Difference between start time and end time must be less than or equal to 10 days") ∧
    (¬ Date.le d2 d1 → (d2.ord : Int) - d1.ord ≤ 10 →
      dates_in_range start_s end_s =
        .ok ((List.range (d2.ord - d1.ord + 1)).map
          (fun i => fmtDateDots (nextDay^[i] d1))) ∧
      1 ≤ d2.ord - d1.ord ∧
      nextDay^[d2.ord - d1.ord] d1 = d2) := by
  rw [dates_in_range_eq start_s end_s d1 d2 h1 h2 hps hpe]
  refine ⟨?_, ?_, ?_⟩
  · intro h
    rw [if_pos h]
  · intro hne hgt
    rw [if_neg hne, if_pos hgt]
  · intro hne hle
    rw [if_neg hne, if_neg (not_lt.mpr hle)]
    have hlt : Date.lt d1 d2 := by
      unfold Date.le at hne
      unfold Date.lt
      omega
    have hord : d1.ord < d2.ord := ord_lt_of_lt h1 h2 hlt
    refine ⟨?_, by omega, ?_⟩
    · have hspec := datesLoopFuel_spec (d2.ord + 1 - d1.ord) d2 d1 h2 h1 le_rfl
      rw [hspec]
      have hidx : d2.ord + 1 - d1.ord = d2.ord - d1.ord + 1 := by omega
      rw [hidx]
    · have hv := iterate_nextDay_valid h1 (d2.ord - d1.ord)
      have ho := iterate_nextDay_ord h1 (d2.ord - d1.ord)
      apply ord_inj hv h2
      omega

/-- Witness for C4 amended on the spec's own example: the ten daily strings
for 2024-05-01 .. 2024-05-10. -/
theorem c4_dates_in_range_amended_witness :
    dates_in_range "2024-05-01" "2024-05-10" =
      .ok ["2024.05.01", "2024.05.02", "2024.05.03", "2024.05.04",
        "2024.05.05", "2024.05.06", "2024.05.07", "2024.05.08",
        "2024.05.09", "2024.05.10"] := by
  have h := (c4_dates_in_range_amended "2024-05-01" "2024-05-10"
      ⟨2024, 5, 1⟩ ⟨2024, 5, 10⟩ (by decide) (by decide)
      (by decide) (by decide)).2.2
      (by decide) (by simp only [Date.ord]; omega)
  refine h.1.trans ?_
  have hn : (⟨2024, 5, 10⟩ : Date).ord - (⟨2024, 5, 1⟩ : Date).ord + 1 = 10 := by
    simp only [Date.ord]
    omega
  rw [hn]
  exact congrArg Except.ok (by decide)

end ExabeamDL
